import Mathlib

/-!
Verification of the FinSearch retrieval core against its specification.

The Python sources under `Main/backend/datascraper/` are shallowly embedded:
Python strings become lists of code points (`PyStr`), file-system and network
effects become explicit state passing over oracle inputs, and fallible code
returns `Except`.  Every definition is translated from the source file it
names; spec-level definitions (used to compare the code against the
specification's wording) are marked as such in their doc comments.
-/

namespace FinSearch

/-- A Python string, modelled as its list of Unicode code points. -/
abbrev PyStr := List Nat

/-- Embed a Lean string literal as a `PyStr`. -/
def pyStr (s : String) : PyStr := s.data.map Char.toNat

/-- Model of Python's whitespace test for `str.split()` / `\s` / `str.strip()`
(ASCII whitespace: space, tab, newline, carriage return, vertical tab, form feed). -/
def isWs (n : Nat) : Bool := decide (n = 32 ∨ n = 9 ∨ n = 10 ∨ n = 13 ∨ n = 11 ∨ n = 12)

/-- Model of Python's `str.lower()` on one code point (ASCII range). -/
def lowerChar (n : Nat) : Nat := if 65 ≤ n ∧ n ≤ 90 then n + 32 else n

/-- Model of Python's `str.lower()`. -/
def pyLower (s : PyStr) : PyStr := s.map lowerChar

/-- Worker for `pySplitWs`: `acc` holds the current word, reversed. -/
def splitWsAux (acc : PyStr) : PyStr → List PyStr
  | [] => if acc.isEmpty then [] else [acc.reverse]
  | c :: cs =>
    if isWs c then
      if acc.isEmpty then splitWsAux [] cs else acc.reverse :: splitWsAux [] cs
    else splitWsAux (c :: acc) cs

/-- Model of Python's `str.split()` (no argument): split on runs of whitespace,
dropping empty words. -/
def pySplitWs (s : PyStr) : List PyStr := splitWsAux [] s

/-- Model of Python's `' '.join(...)`. -/
def pyJoinSp (l : List PyStr) : PyStr := (l.intersperse [32]).flatten

/-- Does `pat` occur at the start of `s`?  (Worker for `pySubstr`.) -/
def pyStartsWith : PyStr → PyStr → Bool
  | [], _ => true
  | _ :: _, [] => false
  | a :: as, b :: bs => a == b && pyStartsWith as bs

/-- Model of Python's substring test `pat in s`. -/
def pySubstr (pat : PyStr) : PyStr → Bool
  | [] => pat.isEmpty
  | c :: rest => pyStartsWith pat (c :: rest) || pySubstr pat rest

/-- Model of Python's `str.strip()`: drop leading and trailing whitespace. -/
def pyStrip (s : PyStr) : PyStr :=
  ((s.dropWhile isWs).reverse.dropWhile isWs).reverse

/-- Decimal rendering of a natural number as a `PyStr` (for Python f-strings). -/
def natPy (n : Nat) : PyStr := (Nat.repr n).data.map Char.toNat

/-!
## Relevance filter (`datascraper.py`, `keyword_match`)
-/

/-- Translation of `keyword_match` from `datascraper.py`:
significant words are the whitespace tokens of the lowercased query longer
than 3 characters; with no significant word, a substring test of the whole
lowercased query; otherwise accept when at least `max(1, len(words) // 2)`
of the significant words occur in the lowercased text. -/
def keyword_match (query text : PyStr) : Bool :=
  let words := (pySplitWs (pyLower query)).filter (fun w => decide (3 < w.length))
  if words.isEmpty then
    pySubstr (pyLower query) (pyLower text)
  else
    let count := (words.filter (fun w => pySubstr w (pyLower text))).length
    decide (max 1 (words.length / 2) ≤ count)

/-- Spec-side restatement of the relevance filter, following the
specification's wording: tokenize the query on whitespace, lowercase the
tokens, keep those longer than 3 characters; with no kept token fall back to a
substring test of the lowercased query, otherwise accept exactly when the
number of kept tokens occurring as substrings of the lowercased text is at
least `max(1, floor(token_count / 2))`. -/
def is_relevant_spec (query text : PyStr) : Bool :=
  let toks := ((pySplitWs query).map pyLower).filter (fun w => decide (3 < w.length))
  if toks.isEmpty then
    pySubstr (pyLower query) (pyLower text)
  else
    decide (max 1 (toks.length / 2) ≤
      (toks.filter (fun w => pySubstr w (pyLower text))).length)

theorem isWs_lowerChar (n : Nat) : isWs (lowerChar n) = isWs n := by
  unfold lowerChar isWs
  split
  · simp only [decide_eq_decide]
    omega
  · rfl

theorem isEmpty_map (f : Nat → Nat) (l : PyStr) : (l.map f).isEmpty = l.isEmpty := by
  cases l <;> rfl

theorem splitWsAux_map_lower (cs : PyStr) : ∀ acc : PyStr,
    splitWsAux (acc.map lowerChar) (cs.map lowerChar) =
      (splitWsAux acc cs).map (List.map lowerChar) := by
  induction cs with
  | nil =>
    intro acc
    simp only [List.map_nil, splitWsAux, isEmpty_map]
    by_cases hacc : acc.isEmpty <;> simp [hacc]
  | cons c cs ih =>
    intro acc
    simp only [List.map_cons, splitWsAux, isWs_lowerChar, isEmpty_map]
    by_cases hws : isWs c
    · by_cases hacc : acc.isEmpty
      · simpa [hws, hacc] using ih []
      · have h0 := ih []
        simp only [List.map_nil] at h0
        simp [hws, hacc, h0]
    · have h1 := ih (c :: acc)
      simp only [List.map_cons] at h1
      simp [hws, h1]

theorem pySplitWs_lower (q : PyStr) :
    pySplitWs (pyLower q) = (pySplitWs q).map pyLower := by
  have := splitWsAux_map_lower q []
  simpa [pySplitWs, pyLower] using this

theorem keyword_match_four_tokens (t : PyStr) :
    keyword_match (pyStr "interest rate hike news") t =
      decide (2 ≤ (([pyStr "interest", pyStr "rate", pyStr "hike", pyStr "news"]).filter
        (fun w => pySubstr w (pyLower t))).length) := rfl

/-- Claim C1: the relevance filter `keyword_match` tokenizes the query on
whitespace, keeps the lowercased tokens longer than 3 characters, falls back to
a lowercased substring test when no such token exists, and otherwise accepts
exactly when the number of kept tokens occurring as substrings of the
lowercased text is at least `max(1, floor(token_count / 2))`; in particular,
for the query "interest rate hike news" a text containing "interest" and
"rate" but no other token is accepted, and a text containing only "interest"
among the tokens is rejected. -/
theorem keyword_match_matches_spec :
    (∀ query text : PyStr, keyword_match query text = is_relevant_spec query text)
    ∧ (∀ text : PyStr,
        pySubstr (pyStr "interest") (pyLower text) = true →
        pySubstr (pyStr "rate") (pyLower text) = true →
        pySubstr (pyStr "hike") (pyLower text) = false →
        pySubstr (pyStr "news") (pyLower text) = false →
        keyword_match (pyStr "interest rate hike news") text = true)
    ∧ (∀ text : PyStr,
        pySubstr (pyStr "interest") (pyLower text) = true →
        pySubstr (pyStr "rate") (pyLower text) = false →
        pySubstr (pyStr "hike") (pyLower text) = false →
        pySubstr (pyStr "news") (pyLower text) = false →
        keyword_match (pyStr "interest rate hike news") text = false) := by
  refine ⟨fun query text => ?_, fun text h1 h2 h3 h4 => ?_, fun text h1 h2 h3 h4 => ?_⟩
  · simp only [keyword_match, is_relevant_spec, pySplitWs_lower]
  · rw [keyword_match_four_tokens]
    simp [List.filter, h1, h2, h3, h4]
  · rw [keyword_match_four_tokens]
    simp [List.filter, h1, h2, h3, h4]

theorem keyword_match_matches_spec_witness :
    keyword_match (pyStr "interest rate hike news") (pyStr "Interest RATE cut expected") = true :=
  keyword_match_matches_spec.2.1 (pyStr "Interest RATE cut expected")
    (by decide) (by decide) (by decide) (by decide)

/-!
## Duplicate-sentence removal (`datascraper.py`, `remove_duplicate_sentences`)
-/

/-- Worker translating `re.split(r'(?<=[.!?])\s+', text)`: scan the text left
to right; when the previous character is `.`, `!` or `?` and the current one is
whitespace, end the current sentence and consume the whole whitespace run.
`inRun` is true while inside a consumed whitespace run, `prev` is the previous
character of the original text, `acc` the current sentence reversed. -/
def sentAux : Bool → Option Nat → PyStr → PyStr → List PyStr
  | _, _, acc, [] => [acc.reverse]
  | true, _, acc, c :: cs =>
    if isWs c then sentAux true (some c) acc cs
    else sentAux false (some c) (c :: acc) cs
  | false, prev, acc, c :: cs =>
    if isWs c ∧ (prev = some 46 ∨ prev = some 33 ∨ prev = some 63) then
      acc.reverse :: sentAux true (some c) [] cs
    else sentAux false (some c) (c :: acc) cs

/-- Model of `re.split(r'(?<=[.!?])\s+', text)` from `remove_duplicate_sentences`. -/
def splitSentences (s : PyStr) : List PyStr := sentAux false none [] s

/-- Worker for `collapseRuns`: `prev` is the last kept sentence. -/
def collapseAux (prev : PyStr) : List PyStr → List PyStr
  | [] => []
  | b :: rest => if b = prev then collapseAux prev rest else b :: collapseAux b rest

/-- Translation of the accumulation loop of `remove_duplicate_sentences`: keep
a sentence iff nothing was kept yet or it differs from the last kept one. -/
def collapseRuns : List PyStr → List PyStr
  | [] => []
  | a :: rest => a :: collapseAux a rest

/-- Translation of `remove_duplicate_sentences` from `datascraper.py`. -/
def remove_duplicate_sentences (s : PyStr) : PyStr :=
  pyJoinSp (collapseRuns (splitSentences s))

theorem collapseAux_destutter (l : List PyStr) : ∀ a : PyStr,
    a :: collapseAux a l = List.destutter' (· ≠ ·) a l := by
  induction l with
  | nil => intro a; rfl
  | cons b rest ih =>
    intro a
    rw [List.destutter'_cons]
    by_cases hab : a = b
    · have hnn : ¬(a ≠ b) := by simpa using hab
      rw [if_neg hnn]
      simp only [collapseAux, if_pos hab.symm]
      exact ih a
    · rw [if_pos hab]
      have hba : ¬b = a := fun h => hab h.symm
      simp only [collapseAux, if_neg hba]
      rw [← ih b]

theorem collapseRuns_destutter (l : List PyStr) :
    collapseRuns l = l.destutter (· ≠ ·) := by
  cases l with
  | nil => rfl
  | cons a rest =>
    rw [List.destutter_cons']
    exact collapseAux_destutter rest a

/-- Claim C3: `remove_duplicate_sentences` splits the text into sentences at
whitespace following `.`, `!` or `?`, collapses each run of identical
consecutive sentences to a single occurrence (`List.destutter` along `≠`,
which preserves non-consecutive duplicates and the order of first
occurrences), and rejoins with single spaces; in particular
"Buy now. Buy now. Sell later. Buy now." maps to
"Buy now. Sell later. Buy now.". -/
theorem remove_duplicate_sentences_spec :
    (∀ text : PyStr,
      remove_duplicate_sentences text =
        pyJoinSp ((splitSentences text).destutter (· ≠ ·)))
    ∧ remove_duplicate_sentences (pyStr "Buy now. Buy now. Sell later. Buy now.") =
        pyStr "Buy now. Sell later. Buy now." := by
  constructor
  · intro text
    rw [remove_duplicate_sentences, collapseRuns_destutter]
  · decide

/-!
## Curated URL list (`datascraper.py`, `get_preferred_urls`)
-/

/-- Model of Python's `file.readlines()`: split after each newline, keeping the
newline at the end of each line; a final segment without a newline is kept,
an empty final segment is not. -/
def pyReadLinesAux (acc : PyStr) : PyStr → List PyStr
  | [] => if acc.isEmpty then [] else [acc.reverse]
  | c :: cs =>
    if c = 10 then (acc.reverse ++ [10]) :: pyReadLinesAux [] cs
    else pyReadLinesAux (c :: acc) cs

/-- Model of Python's `file.readlines()` on the whole file content. -/
def pyReadLines (s : PyStr) : List PyStr := pyReadLinesAux [] s

/-- Translation of `get_preferred_urls` from `datascraper.py`.  The file-system
read is an explicit input: `none` models an absent `preferred_urls.txt`
(`os.path.exists` false), `some c` a file with content `c`.  The source strips
every line of `readlines()` and returns all of them, with no filtering. -/
def get_preferred_urls (fileContent : Option PyStr) : List PyStr :=
  match fileContent with
  | none => []
  | some c => (pyReadLines c).map pyStrip

/-- Spec-side line splitter: one entry per line of the file, newline
terminators dropped (the reading of "one URL per line" in the specification). -/
def specLinesAux (acc : PyStr) : PyStr → List PyStr
  | [] => if acc.isEmpty then [] else [acc.reverse]
  | c :: cs =>
    if c = 10 then acc.reverse :: specLinesAux [] cs
    else specLinesAux (c :: acc) cs

/-- Spec-side line splitter on the whole file content. -/
def specLines (s : PyStr) : List PyStr := specLinesAux [] s

theorem dropWhile_isWs_cons_ws {c : Nat} (h : isWs c = true) (l : PyStr) :
    List.dropWhile isWs (c :: l) = List.dropWhile isWs l := by
  simp [List.dropWhile, h]

theorem pyStrip_append_nl (x : PyStr) : pyStrip (x ++ [10]) = pyStrip x := by
  unfold pyStrip
  induction x with
  | nil => decide
  | cons c cs ih =>
    by_cases h : isWs c
    · simp only [List.cons_append, dropWhile_isWs_cons_ws h]
      exact ih
    · simp only [List.cons_append, List.dropWhile_cons, h, if_neg]
      simp only [Bool.false_eq_true, if_false, List.reverse_cons, List.append_assoc]
      have h10 : isWs 10 = true := by decide
      simp [List.dropWhile_append, dropWhile_isWs_cons_ws h10]

theorem readLines_strip_eq (cs : PyStr) : ∀ acc : PyStr,
    (pyReadLinesAux acc cs).map pyStrip = (specLinesAux acc cs).map pyStrip := by
  induction cs with
  | nil => intro acc; rfl
  | cons c cs ih =>
    intro acc
    by_cases h : c = 10
    · subst h
      simp [pyReadLinesAux, specLinesAux, ih [], pyStrip_append_nl]
    · simp only [pyReadLinesAux, specLinesAux, if_neg h]
      exact ih (c :: acc)

/-- Claim C8 counterexample: as stated the claim is false — for a curated-URL
file containing a blank line, `get_preferred_urls` keeps the blank line as an
empty-string element (the source strips every line of `readlines()` but never
filters blank ones out). -/
theorem get_preferred_urls_blank_line_counterexample :
    ¬ (∀ u ∈ get_preferred_urls (some (pyStr "http://a.example\n\nhttp://b.example\n")),
        u ≠ ([] : PyStr)) := by decide

/-- Claim C8 (amended): reading the curated URL list yields one entry per line
of the file, each line stripped of its surrounding whitespace; blank lines are
NOT ignored — they yield empty-string entries; an absent file yields the empty
list. -/
theorem get_preferred_urls_amended :
    (∀ fileContent : PyStr,
      get_preferred_urls (some fileContent) = (specLines fileContent).map pyStrip)
    ∧ get_preferred_urls none = []
    ∧ [] ∈ get_preferred_urls (some (pyStr "http://a.example\n\nhttp://b.example\n")) := by
  refine ⟨fun c => ?_, rfl, by decide⟩
  exact readLines_strip_eq c []

/-!
## Content extractor (`datascraper.py`, `data_scrape`)

The parsed HTML page is embedded as the data `data_scrape` consumes after
`BeautifulSoup(response.text)` and the `decompose()` of non-content elements:
the title string, the description meta tag, the heading/paragraph tags of the
class-matched content containers, the heading/paragraph tags of the whole
document, and the full flattened text `soup.get_text(separator=' ', strip=True)`.
-/

/-- One `h1`..`h6`/`p` tag: whether it is a heading, and its stripped text. -/
structure TagText where
  isHeading : Bool
  text : PyStr
deriving DecidableEq

/-- The parsed page as consumed by `data_scrape` after decomposition. -/
structure HtmlDoc where
  title : Option PyStr
  metaDescription : Option PyStr
  contentElements : List (List TagText)
  allTags : List TagText
  fullText : PyStr

/-- Outcome of `requests.get` in `data_scrape`: an HTTP response with a status
code and parsed document, a `requests.exceptions.Timeout`, or any other
exception with its message. -/
inductive FetchOutcome where
  | ok (statusCode : Nat) (doc : HtmlDoc)
  | timeout
  | exn (msg : PyStr)

inductive ScrapeStatus where
  | success
  | error
deriving DecidableEq

structure PageMetadata where
  title : Option PyStr
  description : Option PyStr
deriving DecidableEq

/-- The dictionary returned by `data_scrape`: `url` and `status` are always
present, `error` only on failure, `metadata` and `content` only on success. -/
structure ScrapeResult where
  url : PyStr
  status : ScrapeStatus
  error : Option PyStr
  metadata : Option PageMetadata
  content : Option PyStr
deriving DecidableEq

/-- One tag's contribution to `main_content`: its text plus a newline for
headings, a space for paragraphs; empty texts contribute nothing. -/
def tagLine (tg : TagText) : PyStr :=
  if tg.text.isEmpty then [] else tg.text ++ (if tg.isHeading then [10] else [32])

/-- Step 1 of the extraction ladder: headings/paragraphs inside the
class-matched content containers. -/
def step1Text (doc : HtmlDoc) : PyStr :=
  if doc.contentElements.isEmpty then []
  else ((doc.contentElements.map (fun el => (el.map tagLine).flatten)).flatten)

/-- Step 2 of the extraction ladder: all headings, and paragraphs whose
stripped text exceeds 50 characters. -/
def step2Text (doc : HtmlDoc) : PyStr :=
  ((doc.allTags.filter
    (fun tg => !tg.text.isEmpty && (tg.isHeading || decide (50 < tg.text.length)))).map
      tagLine).flatten

/-- `main_content` after steps 1 and 2 of `data_scrape` (step 2 runs only when
step 1 accumulated nothing). -/
def ladderText (doc : HtmlDoc) : PyStr :=
  let m1 := step1Text doc
  if m1.isEmpty then step2Text doc else m1

/-- `' '.join(all_text.split())`: the whitespace-normalized flattened text. -/
def normWs (s : PyStr) : PyStr := pyJoinSp (pySplitWs s)

/-- `main_content` after the final fallback of `data_scrape`: the normalized
full-page text whenever steps 1-2 accumulated nothing or fewer than 200
characters. -/
def extractMain (doc : HtmlDoc) : PyStr :=
  let m := ladderText doc
  if m.isEmpty || decide (m.length < 200) then normWs doc.fullText else m

/-- The `content` field of a successful `data_scrape`. -/
def extractContent (doc : HtmlDoc) : PyStr :=
  remove_duplicate_sentences (extractMain doc)

/-- Metadata extraction of `data_scrape`: title and description meta tag,
each kept only when present and non-empty (Python truthiness), stripped. -/
def extractMetadata (doc : HtmlDoc) : PageMetadata :=
  { title :=
      match doc.title with
      | some t => if t.isEmpty then none else some (pyStrip t)
      | none => none
    description :=
      match doc.metaDescription with
      | some d => if d.isEmpty then none else some (pyStrip d)
      | none => none }

/-- Translation of `data_scrape` from `datascraper.py`.  The network call is
the explicit `outcome` input; the `rate_limit` sleep has no observable effect
in the embedding.  Every branch of the source returns a dictionary (the two
`except` clauses catch `Timeout` and every other `Exception`), so the
embedding is a total function: `data_scrape` never raises to its caller. -/
def data_scrape (url : PyStr) (timeout rate_limit : Nat) (outcome : FetchOutcome) :
    ScrapeResult :=
  match outcome with
  | .ok code doc =>
    if code ≠ 200 then
      { url := url, status := .error,
        error := some (pyStr "Status code " ++ natPy code),
        metadata := none, content := none }
    else
      { url := url, status := .success, error := none,
        metadata := some (extractMetadata doc),
        content := some (extractContent doc) }
  | .timeout =>
      { url := url, status := .error,
        error := some (pyStr "Timeout after " ++ natPy timeout ++ pyStr " seconds"),
        metadata := none, content := none }
  | .exn m =>
      { url := url, status := .error, error := some m,
        metadata := none, content := none }

theorem splitWsAux_mem_ne_nil (cs : PyStr) : ∀ acc w : PyStr,
    w ∈ splitWsAux acc cs → w ≠ [] := by
  induction cs with
  | nil =>
    intro acc w hw
    simp only [splitWsAux] at hw
    by_cases hacc : acc.isEmpty
    · simp [hacc] at hw
    · simp only [hacc, if_false, Bool.false_eq_true, List.mem_singleton] at hw
      subst hw
      simpa using fun h => hacc (by simp [h])
  | cons c cs ih =>
    intro acc w hw
    simp only [splitWsAux] at hw
    by_cases hws : isWs c
    · by_cases hacc : acc.isEmpty
      · simp only [hws, hacc, if_true] at hw
        exact ih [] w hw
      · simp only [hws, hacc, if_true, Bool.false_eq_true, if_false, List.mem_cons] at hw
        rcases hw with hw | hw
        · subst hw
          simpa using fun h => hacc (by simp [h])
        · exact ih [] w hw
    · simp only [hws, Bool.false_eq_true, if_false] at hw
      exact ih (c :: acc) w hw

theorem pyJoinSp_cons (x : PyStr) (l : List PyStr) :
    ∃ y, pyJoinSp (x :: l) = x ++ y := by
  cases l with
  | nil => exact ⟨[], by simp [pyJoinSp]⟩
  | cons h t =>
    exact ⟨32 :: (List.intersperse [32] (h :: t)).flatten,
      by simp [pyJoinSp, List.intersperse]⟩

theorem normWs_ne_nil {s : PyStr} (h : pySplitWs s ≠ []) : normWs s ≠ [] := by
  unfold normWs
  cases hsp : pySplitWs s with
  | nil => exact absurd hsp h
  | cons x l =>
    have hx : x ≠ [] := splitWsAux_mem_ne_nil s [] x (by rw [← pySplitWs]; rw [hsp]; exact List.mem_cons_self x l)
    obtain ⟨y, hy⟩ := pyJoinSp_cons x l
    rw [hy]
    simpa using fun hxy => hx (List.append_eq_nil.mp hxy).1

theorem sentAux_false_shape (cs : PyStr) : ∀ (prev : Option Nat) (acc : PyStr),
    ∃ t rest, sentAux false prev acc cs = (acc.reverse ++ t) :: rest := by
  induction cs with
  | nil =>
    intro prev acc
    exact ⟨[], [], by simp [sentAux]⟩
  | cons c cs ih =>
    intro prev acc
    simp only [sentAux]
    by_cases hc : isWs c ∧ (prev = some 46 ∨ prev = some 33 ∨ prev = some 63)
    · exact ⟨[], sentAux true (some c) [] cs, by simp [hc]⟩
    · obtain ⟨t, rest, ht⟩ := ih (some c) (c :: acc)
      refine ⟨[c] ++ t, rest, ?_⟩
      simp only [hc, if_false]
      rw [ht]
      simp

theorem splitSentences_shape {s : PyStr} (h : s ≠ []) :
    ∃ x rest, splitSentences s = x :: rest ∧ x ≠ [] := by
  cases s with
  | nil => exact absurd rfl h
  | cons c cs =>
    have hstep : splitSentences (c :: cs) = sentAux false (some c) [c] cs := by
      simp [splitSentences, sentAux]
    obtain ⟨t, rest, ht⟩ := sentAux_false_shape cs (some c) [c]
    refine ⟨c :: t, rest, ?_, by simp⟩
    rw [hstep, ht]
    simp

theorem remove_duplicate_sentences_ne_nil {s : PyStr} (h : s ≠ []) :
    remove_duplicate_sentences s ≠ [] := by
  obtain ⟨x, rest, hsp, hx⟩ := splitSentences_shape h
  unfold remove_duplicate_sentences
  rw [hsp]
  show pyJoinSp (x :: collapseAux x rest) ≠ []
  obtain ⟨y, hy⟩ := pyJoinSp_cons x (collapseAux x rest)
  rw [hy]
  simpa using fun hxy => hx (List.append_eq_nil.mp hxy).1

/-- Claim C6: on a successfully fetched page whose flattened text is non-empty
(BeautifulSoup's `get_text(strip=True)` output is empty or contains a
non-whitespace character, so "non-empty" is modelled as "contains at least one
whitespace-split word"), `data_scrape` never returns an empty content string;
whenever neither ladder step accumulated text, or the accumulated text is
shorter than 200 characters, the content is the whitespace-normalized full
page text (post-processed by the duplicate-sentence removal the source applies
to every content). -/
theorem data_scrape_fallback_ladder (url : PyStr) (timeout rl : Nat) (doc : HtmlDoc)
    (h : pySplitWs doc.fullText ≠ []) :
    ∃ c, (data_scrape url timeout rl (.ok 200 doc)).content = some c
      ∧ c ≠ []
      ∧ (ladderText doc = [] ∨ (ladderText doc).length < 200 →
          c = remove_duplicate_sentences (normWs doc.fullText)) := by
  refine ⟨extractContent doc, by simp [data_scrape], ?_, ?_⟩
  · unfold extractContent extractMain
    by_cases hcond : ((ladderText doc).isEmpty || decide ((ladderText doc).length < 200)) = true
    · rw [if_pos hcond]
      exact remove_duplicate_sentences_ne_nil (normWs_ne_nil h)
    · rw [if_neg hcond]
      refine remove_duplicate_sentences_ne_nil ?_
      intro hnil
      exact hcond (by simp [hnil])
  · intro hfb
    have hcond : ((ladderText doc).isEmpty || decide ((ladderText doc).length < 200)) = true := by
      rcases hfb with hfb | hfb
      · simp [hfb]
      · simp [hfb]
    unfold extractContent extractMain
    rw [if_pos hcond]

theorem data_scrape_fallback_ladder_witness :
    ∃ c, (data_scrape (pyStr "http://x.example") 10 1
          (.ok 200 ⟨none, none, [], [], pyStr "hello world"⟩)).content = some c
      ∧ c ≠ []
      ∧ (ladderText ⟨none, none, [], [], pyStr "hello world"⟩ = []
          ∨ (ladderText ⟨none, none, [], [], pyStr "hello world"⟩).length < 200 →
          c = remove_duplicate_sentences (normWs (pyStr "hello world"))) :=
  data_scrape_fallback_ladder (pyStr "http://x.example") 10 1
    ⟨none, none, [], [], pyStr "hello world"⟩ (by decide)

/-- Claim C7: `data_scrape` is a total function of the fetch outcome (both
`except` clauses of the source return a dictionary, so it never raises to its
caller); the returned record always carries the input URL; a non-2xx HTTP
status, a timeout, or any other failure yields status `error` together with a
human-readable `error` reason; an HTTP 200 response yields status `success`. -/
theorem data_scrape_error_handling (url : PyStr) (timeout rl : Nat) (outcome : FetchOutcome) :
    (data_scrape url timeout rl outcome).url = url
    ∧ (∀ code doc, outcome = .ok code doc → ¬(200 ≤ code ∧ code ≤ 299) →
        (data_scrape url timeout rl outcome).status = .error
        ∧ (data_scrape url timeout rl outcome).error =
            some (pyStr "Status code " ++ natPy code))
    ∧ (outcome = .timeout →
        (data_scrape url timeout rl outcome).status = .error
        ∧ (data_scrape url timeout rl outcome).error =
            some (pyStr "Timeout after " ++ natPy timeout ++ pyStr " seconds"))
    ∧ (∀ m, outcome = .exn m →
        (data_scrape url timeout rl outcome).status = .error
        ∧ (data_scrape url timeout rl outcome).error = some m)
    ∧ (∀ doc, outcome = .ok 200 doc →
        (data_scrape url timeout rl outcome).status = .success) := by
  refine ⟨?_, ?_, ?_, ?_, ?_⟩
  · cases outcome with
    | ok code doc =>
      by_cases hc : code = 200
      · subst hc; simp [data_scrape]
      · simp [data_scrape, hc]
    | timeout => rfl
    | exn m => rfl
  · intro code doc hout hcode
    subst hout
    have hne : code ≠ 200 := fun h => hcode (by omega)
    exact ⟨by simp [data_scrape, hne], by simp [data_scrape, hne]⟩
  · intro hout
    subst hout
    exact ⟨rfl, rfl⟩
  · intro m hout
    subst hout
    exact ⟨rfl, rfl⟩
  · intro doc hout
    subst hout
    simp [data_scrape]

theorem data_scrape_error_handling_witness :
    (data_scrape (pyStr "http://y.example") 10 1 .timeout).status = ScrapeStatus.error
    ∧ (data_scrape (pyStr "http://y.example") 10 1 .timeout).error =
        some (pyStr "Timeout after " ++ natPy 10 ++ pyStr " seconds") :=
  (data_scrape_error_handling (pyStr "http://y.example") 10 1 .timeout).2.2.1 rfl

/-!
## Source orchestrator (`datascraper.py`, `search_preferred_urls` and
`create_advanced_response`)

The effectful collaborators are explicit oracle inputs: the curated URL list
(the parsed content of `preferred_urls.txt`), the scrape of each URL (one
`data_scrape` outcome per URL), the general web search result list for the
query, and the chat-completion backend.
-/

/-- One conversation message `{"role": ..., "content": ...}`. -/
structure ChatMsg where
  role : PyStr
  content : PyStr
deriving DecidableEq

/-- The external collaborators of the orchestrator. -/
structure World where
  preferredUrls : List PyStr
  scrape : PyStr → ScrapeResult
  searchResults : List PyStr
  llm : List ChatMsg → PyStr
  rag : PyStr → PyStr → PyStr

/-- The acceptance test applied to a scraped info dictionary in
`search_preferred_urls` and (again) in `create_advanced_response`:
`info.get('status') == 'success' and keyword_match(query, info.get('content', ''))`. -/
def relevantPred (query : PyStr) (info : ScrapeResult) : Bool :=
  decide (info.status = .success) && keyword_match query (info.content.getD [])

/-- Translation of `search_preferred_urls` from `datascraper.py`: scrape every
preferred URL in order and keep the results passing `relevantPred`. -/
def search_preferred_urls (w : World) (query : PyStr) : List ScrapeResult :=
  (w.preferredUrls.map w.scrape).filter (relevantPred query)

/-- The combined context string built per kept result in
`create_advanced_response`, appended as a `user` message. -/
def ctxMsg (info : ScrapeResult) : ChatMsg :=
  let md := info.metadata.getD ⟨none, none⟩
  ⟨pyStr "user",
    pyStr "URL: " ++ info.url ++ pyStr "\nTitle: " ++ md.title.getD [] ++
    pyStr "\nDescription: " ++ md.description.getD [] ++
    pyStr "\nContent: " ++ info.content.getD []⟩

/-- The final user message of `create_advanced_response` (and of
`create_response`) embedding the literal query. -/
def finalUserMsg (userInput : PyStr) : ChatMsg :=
  ⟨pyStr "user",
    pyStr "You are to use provided context as fact and not your own knowledge as the context provided is the most up-to-date information.\n\n"
      ++ userInput⟩

/-- `used_urls.add(...)` on the module-level set, modelled as an ordered list
with set semantics. -/
def pySetAdd (s : List PyStr) (u : PyStr) : List PyStr :=
  if u ∈ s then s else s ++ [u]

/-- Result of one `create_advanced_response` run: the final state of the
caller's `message_list`, the module-level `used_urls` set (cleared at the start
of the run), whether the general web search collaborator was invoked, and the
answer returned by the chat-completion backend. -/
structure AdvancedOut where
  messages : List ChatMsg
  usedUrls : List PyStr
  searchCalled : Bool
  answer : PyStr

/-- Translation of `create_advanced_response` from `datascraper.py`: phase 1
re-filters the (already filtered) preferred results, collecting context
messages and used URLs; the fallback web search runs only when no preferred
result passes the predicate; all context messages and the final user message
are appended to the caller's `message_list`, which is then sent to the model. -/
def create_advanced_response (w : World) (userInput : PyStr) (ml : List ChatMsg) :
    AdvancedOut :=
  let preferred := search_preferred_urls w userInput
  let kept1 := preferred.filter (relevantPred userInput)
  let used1 := kept1.foldl (fun s info => pySetAdd s info.url) []
  let ctx1 := kept1.map ctxMsg
  let anyRel := preferred.any (relevantPred userInput)
  let fallbackInfos := if anyRel then [] else w.searchResults.map w.scrape
  let kept2 := fallbackInfos.filter (relevantPred userInput)
  let used2 := kept2.foldl (fun s info => pySetAdd s info.url) used1
  let ctx2 := kept2.map ctxMsg
  let msgs := ml ++ ctx1 ++ ctx2 ++ [finalUserMsg userInput]
  { messages := msgs, usedUrls := used2, searchCalled := !anyRel, answer := w.llm msgs }

theorem search_preferred_urls_all_relevant (w : World) (query : PyStr) :
    ∀ info ∈ search_preferred_urls w query, relevantPred query info = true := by
  intro info hinfo
  exact List.of_mem_filter hinfo

/-- Claim C2: the fallback general web search collaborator is invoked exactly
when the preferred-URL phase produced zero relevant results; equivalently, it
is never invoked as soon as `search_preferred_urls` yields at least one result
with status success passing the relevance filter. -/
theorem create_advanced_response_short_circuit (w : World) (q : PyStr) (ml : List ChatMsg) :
    ((create_advanced_response w q ml).searchCalled = false
      ↔ ∃ info ∈ search_preferred_urls w q, relevantPred q info = true)
    ∧ ((create_advanced_response w q ml).searchCalled = true
      ↔ search_preferred_urls w q = []) := by
  have hall := search_preferred_urls_all_relevant w q
  have hsc : (create_advanced_response w q ml).searchCalled
      = !(search_preferred_urls w q).any (relevantPred q) := rfl
  constructor
  · rw [hsc]
    simp only [Bool.not_eq_false', List.any_eq_true]
  · rw [hsc]
    simp only [Bool.not_eq_eq_eq_not, Bool.not_true, List.any_eq_false]
    constructor
    · intro hnone
      cases hsp : search_preferred_urls w q with
      | nil => rfl
      | cons x rest =>
        have hx : relevantPred q x = true := hall x (by rw [hsp]; exact List.mem_cons_self x rest)
        have := hnone x (by rw [hsp]; exact List.mem_cons_self x rest)
        simp [hx] at this
    · intro hnil info hinfo
      rw [hnil] at hinfo
      simp at hinfo

/-- A concrete world for exercising the orchestrator theorems. -/
def demoWorld : World :=
  { preferredUrls := [pyStr "http://pref.example"]
    scrape := fun u =>
      { url := u, status := .success, error := none,
        metadata := none, content := some (pyStr "interest rates are rising") }
    searchResults := []
    llm := fun _ => []
    rag := fun _ _ => [] }

theorem create_advanced_response_short_circuit_witness :
    (create_advanced_response demoWorld (pyStr "interest") []).searchCalled = false :=
  (create_advanced_response_short_circuit demoWorld (pyStr "interest") []).1.mpr
    ⟨{ url := pyStr "http://pref.example", status := .success, error := none,
       metadata := none, content := some (pyStr "interest rates are rising") },
     by decide, by decide⟩

/-!
## Multiple-model handling (`datascraper.py`, `handle_multiple_models`)

Python message lists are mutable objects aliased by reference, so the
message-list heap is modelled explicitly: a store of lists indexed by
reference, with `message_list.copy()` allocating a fresh reference holding the
same contents.
-/

/-- The heap of message-list objects, indexed by reference (position). -/
abbrev MsgStore := List (List ChatMsg)

/-- Read the list object behind reference `r`. -/
def readRef (s : MsgStore) (r : Nat) : List ChatMsg := s.getD r []

/-- Overwrite the list object behind reference `r`. -/
def writeRef (s : MsgStore) (r : Nat) (v : List ChatMsg) : MsgStore := s.set r v

/-- `list.copy()`: allocate a fresh object with the same contents. -/
def allocRef (s : MsgStore) (v : List ChatMsg) : MsgStore × Nat :=
  (s ++ [v], s.length)

/-- `create_advanced_response` acting on the message-list object it is handed:
it appends its context messages and the final user message to that object
(lines 290-298 of `datascraper.py`) and returns the model's answer. -/
def create_advanced_response_st (w : World) (q : PyStr) (s : MsgStore) (r : Nat) :
    MsgStore × PyStr :=
  let out := create_advanced_response w q (readRef s r)
  (writeRef s r out.messages, out.answer)

/-- `create_response` acting on the message-list object it is handed: the
source builds a *new* filtered list (`filtered_message_list`), appends the
final user message to that copy only, and never mutates the caller's list. -/
def create_response_st (w : World) (q : PyStr) (s : MsgStore) (r : Nat) :
    MsgStore × PyStr :=
  let filtered := (readRef s r).filter (fun m => decide (m.role ≠ pyStr "system"))
  (s, w.llm (filtered ++ [finalUserMsg q]))

/-- `create_rag_response` acting on the message-list object it is handed: the
RAG collaborator's answer (or the `FileNotFoundError` message) is appended to
the caller's list as a single `user` message. -/
def create_rag_response_st (w : World) (q model : PyStr) (s : MsgStore) (r : Nat) :
    MsgStore × PyStr :=
  let resp := w.rag q model
  (writeRef s r (readRef s r ++ [⟨pyStr "user", resp⟩]), resp)

/-- Translation of `handle_multiple_models` from `datascraper.py`: for each
model, pass `message_list.copy()` (a fresh object) to
`create_advanced_response` when the model name contains "advanced", else to
`create_response`; collect the responses keyed by model name. -/
def handle_multiple_models (w : World) (q : PyStr) :
    MsgStore → Nat → List PyStr → MsgStore × List (PyStr × PyStr)
  | s, _, [] => (s, [])
  | s, r, model :: rest =>
    let contents := readRef s r
    let alloc := allocRef s contents
    let s1 := alloc.1
    let copyRef := alloc.2
    let step :=
      if pySubstr (pyStr "advanced") model then create_advanced_response_st w q s1 copyRef
      else create_response_st w q s1 copyRef
    let next := handle_multiple_models w q step.1 r rest
    (next.1, (model, step.2) :: next.2)

theorem readRef_append_lt {s : MsgStore} {r : Nat} (h : r < s.length) (v : List ChatMsg) :
    readRef (s ++ [v]) r = readRef s r := by
  unfold readRef
  induction s generalizing r with
  | nil => simp at h
  | cons x xs ih =>
    cases r with
    | zero => rfl
    | succ n =>
      simp only [List.cons_append, List.getD, List.get?_cons_succ] at *
      exact ih (by simpa using h)

theorem readRef_set_ne {s : MsgStore} {i r : Nat} (h : i ≠ r) (v : List ChatMsg) :
    readRef (s.set i v) r = readRef s r := by
  unfold readRef
  induction s generalizing i r with
  | nil => simp
  | cons x xs ih =>
    cases i with
    | zero =>
      cases r with
      | zero => exact absurd rfl h
      | succ m => rfl
    | succ n =>
      cases r with
      | zero => rfl
      | succ m =>
        simp only [List.set]
        exact ih (fun he => h (by rw [he])) 

theorem readRef_set_self {s : MsgStore} {r : Nat} (h : r < s.length) (v : List ChatMsg) :
    readRef (s.set r v) r = v := by
  unfold readRef
  induction s generalizing r with
  | nil => simp at h
  | cons x xs ih =>
    cases r with
    | zero => rfl
    | succ n =>
      simp only [List.set]
      exact ih (by simpa using h)

theorem advanced_messages_shape (w : World) (q : PyStr) (ml : List ChatMsg) :
    ∃ extra, (create_advanced_response w q ml).messages = ml ++ extra
      ∧ 1 ≤ extra.length := by
  refine ⟨((search_preferred_urls w q).filter (relevantPred q)).map ctxMsg
    ++ (((if (search_preferred_urls w q).any (relevantPred q) then []
          else w.searchResults.map w.scrape).filter (relevantPred q)).map ctxMsg
    ++ [finalUserMsg q]), ?_, by simp; omega⟩
  simp [create_advanced_response]

theorem handle_multiple_models_frame (w : World) (q : PyStr) (models : List PyStr) :
    ∀ (s : MsgStore) (r : Nat), r < s.length →
      readRef (handle_multiple_models w q s r models).1 r = readRef s r
      ∧ s.length ≤ (handle_multiple_models w q s r models).1.length := by
  induction models with
  | nil => intro s r _; exact ⟨rfl, Nat.le_refl _⟩
  | cons model rest ih =>
    intro s r hr
    have hne : s.length ≠ r := Nat.ne_of_gt hr
    by_cases hadv : pySubstr (pyStr "advanced") model = true
    · have hstep :
          (if pySubstr (pyStr "advanced") model then
            create_advanced_response_st w q (s ++ [readRef s r]) s.length
          else create_response_st w q (s ++ [readRef s r]) s.length).1
          = (s ++ [readRef s r]).set s.length
              (create_advanced_response w q (readRef (s ++ [readRef s r]) s.length)).messages := by
        rw [if_pos hadv]; rfl
      have hread : readRef ((s ++ [readRef s r]).set s.length
          (create_advanced_response w q (readRef (s ++ [readRef s r]) s.length)).messages) r
          = readRef s r := by
        rw [readRef_set_ne hne, readRef_append_lt hr]
      have hlen : s.length ≤ ((s ++ [readRef s r]).set s.length
          (create_advanced_response w q (readRef (s ++ [readRef s r]) s.length)).messages).length := by
        simp
      have hr2 : r < ((s ++ [readRef s r]).set s.length
          (create_advanced_response w q (readRef (s ++ [readRef s r]) s.length)).messages).length := by
        simp
        omega
      obtain ⟨hihr, hihl⟩ := ih _ r hr2
      refine ⟨?_, ?_⟩
      · show readRef (handle_multiple_models w q
          (if pySubstr (pyStr "advanced") model then
            create_advanced_response_st w q (s ++ [readRef s r]) s.length
          else create_response_st w q (s ++ [readRef s r]) s.length).1 r rest).1 r
          = readRef s r
        rw [hstep] at *
        rw [hihr, hread]
      · show s.length ≤ (handle_multiple_models w q
          (if pySubstr (pyStr "advanced") model then
            create_advanced_response_st w q (s ++ [readRef s r]) s.length
          else create_response_st w q (s ++ [readRef s r]) s.length).1 r rest).1.length
        rw [hstep] at *
        calc s.length ≤ ((s ++ [readRef s r]).set s.length
              (create_advanced_response w q (readRef (s ++ [readRef s r]) s.length)).messages).length := hlen
          _ ≤ _ := hihl
    · have hstep :
          (if pySubstr (pyStr "advanced") model then
            create_advanced_response_st w q (s ++ [readRef s r]) s.length
          else create_response_st w q (s ++ [readRef s r]) s.length).1
          = s ++ [readRef s r] := by
        rw [if_neg hadv]; rfl
      have hr2 : r < (s ++ [readRef s r]).length := by
        simp
        omega
      obtain ⟨hihr, hihl⟩ := ih (s ++ [readRef s r]) r hr2
      refine ⟨?_, ?_⟩
      · show readRef (handle_multiple_models w q
          (if pySubstr (pyStr "advanced") model then
            create_advanced_response_st w q (s ++ [readRef s r]) s.length
          else create_response_st w q (s ++ [readRef s r]) s.length).1 r rest).1 r
          = readRef s r
        rw [hstep]
        rw [hihr, readRef_append_lt hr]
      · show s.length ≤ (handle_multiple_models w q
          (if pySubstr (pyStr "advanced") model then
            create_advanced_response_st w q (s ++ [readRef s r]) s.length
          else create_response_st w q (s ++ [readRef s r]) s.length).1 r rest).1.length
        rw [hstep]
        have : s.length ≤ (s ++ [readRef s r]).length := by simp
        omega

/-- Claim C10: `handle_multiple_models` leaves the caller's message-list
object unchanged — it hands each per-model call a `copy()`, so mutations land
on fresh objects — even though `create_advanced_response` strictly grows the
message list it is given (context plus final user message) and
`create_rag_response` appends one message to it. -/
theorem handle_multiple_models_preserves_caller_list (w : World) (q : PyStr)
    (s : MsgStore) (r : Nat) (models : List PyStr) (h : r < s.length) :
    readRef (handle_multiple_models w q s r models).1 r = readRef s r
    ∧ (∀ (s2 : MsgStore) (r2 : Nat), r2 < s2.length →
        (readRef s2 r2).length <
          (readRef (create_advanced_response_st w q s2 r2).1 r2).length)
    ∧ (∀ (s2 : MsgStore) (r2 : Nat) (model : PyStr), r2 < s2.length →
        readRef (create_rag_response_st w q model s2 r2).1 r2
          = readRef s2 r2 ++ [⟨pyStr "user", w.rag q model⟩]) := by
  refine ⟨(handle_multiple_models_frame w q models s r h).1, ?_, ?_⟩
  · intro s2 r2 h2
    show (readRef s2 r2).length <
      (readRef (writeRef s2 r2 (create_advanced_response w q (readRef s2 r2)).messages) r2).length
    rw [writeRef, readRef_set_self h2]
    obtain ⟨extra, hex, hlen⟩ := advanced_messages_shape w q (readRef s2 r2)
    rw [hex]
    simp only [List.length_append]
    omega
  · intro s2 r2 model h2
    show readRef (writeRef s2 r2 (readRef s2 r2 ++ [⟨pyStr "user", w.rag q model⟩])) r2
      = readRef s2 r2 ++ [⟨pyStr "user", w.rag q model⟩]
    rw [writeRef, readRef_set_self h2]

theorem handle_multiple_models_preserves_caller_list_witness :
    readRef (handle_multiple_models demoWorld (pyStr "interest")
        [[]] 0 [pyStr "advanced-search", pyStr "o3-mini"]).1 0
      = readRef ([[]] : MsgStore) 0 :=
  (handle_multiple_models_preserves_caller_list demoWorld (pyStr "interest")
    [[]] 0 [pyStr "advanced-search", pyStr "o3-mini"] (by decide)).1

/-!
## Ingestion pipeline (`create_embeddings.py`)

The Sentence-Transformer call is an explicit oracle `embed` returning either a
vector (whose float entries are modelled abstractly as integers — the claims
only inspect counts and lengths) or an exception message; the persisted
filesystem state (`embeddings.pkl` and `faiss_index.idx`) is an explicit
`EmbStore` threaded through `upload_folder`.
-/

/-- One element of the `filePaths` batch: `item.get('name')` and
`item.get('content')`. -/
structure FileItem where
  name : Option PyStr
  content : Option PyStr
deriving DecidableEq

/-- One chunk dictionary `{"text", "metadata": {"file_path"}, "embedding"}`. -/
structure Chunk where
  text : PyStr
  filePath : PyStr
  embedding : List Int
deriving DecidableEq

/-- The persisted FAISS flat L2 index: its dimension and its vector matrix. -/
structure FaissIndex where
  d : Nat
  vectors : List (List Int)
deriving DecidableEq

/-- `index.ntotal`: the number of vectors in the index. -/
def FaissIndex.ntotal (i : FaissIndex) : Nat := i.vectors.length

/-- The persisted artifacts: `embeddings.pkl` and `faiss_index.idx`
(`none` = file absent). -/
structure EmbStore where
  embeddingsFile : Option (List Chunk)
  indexFile : Option FaissIndex
deriving DecidableEq

/-- Python truthiness `file_name and file_content`: both keys present with
non-empty values. -/
def survives (it : FileItem) : Bool :=
  match it.name, it.content with
  | some n, some c => !n.isEmpty && !c.isEmpty
  | _, _ => false

/-- The chunk-building loop of `upload_folder`: skip items missing (or with
empty) name or content, embed the rest in order; an exception raised by the
embedding model propagates (aborting the loop before anything is persisted). -/
def processItems (embed : PyStr → Except PyStr (List Int)) :
    List FileItem → Except PyStr (List Chunk)
  | [] => .ok []
  | it :: rest =>
    match it.name, it.content with
    | some n, some c =>
      if !n.isEmpty && !c.isEmpty then
        match embed c with
        | .error e => .error e
        | .ok v =>
          match processItems embed rest with
          | .error e => .error e
          | .ok chunks => .ok ({ text := c, filePath := n, embedding := v } :: chunks)
      else processItems embed rest
    | _, _ => processItems embed rest

/-- Translation of `create_faiss_index` from `create_embeddings.py`: with no
chunks it returns without writing; otherwise it infers the dimension from the
first chunk's embedding, assembles the embedding matrix (which raises when the
rows are ragged, modelled as `.error`), and returns the index to persist. -/
def create_faiss_index (chunks : List Chunk) : Except PyStr (Option FaissIndex) :=
  match chunks with
  | [] => .ok none
  | c0 :: _ =>
    let dim := c0.embedding.length
    if chunks.all (fun c => c.embedding.length == dim) then
      .ok (some { d := dim, vectors := chunks.map (fun c => c.embedding) })
    else .error (pyStr "setting an array element with a sequence")

/-- Translation of `upload_folder` from `create_embeddings.py`: build the
chunk list (all embeddings computed before any write); with no surviving chunk
return the "nothing to embed" response with the persisted state untouched;
otherwise write `embeddings.pkl`, then build and write the FAISS index; any
exception is caught and mapped to a 500 response, leaving whatever had been
persisted so far. -/
def upload_folder (embed : PyStr → Except PyStr (List Int)) (filePaths : List FileItem)
    (fs : EmbStore) : (PyStr × Nat) × EmbStore :=
  match processItems embed filePaths with
  | .error e => ((pyStr "Server error processing files: " ++ e, 500), fs)
  | .ok chunks =>
    if chunks.isEmpty then
      ((pyStr "No valid files processed. Nothing to embed.", 200), fs)
    else
      let fs1 : EmbStore := { fs with embeddingsFile := some chunks }
      match create_faiss_index chunks with
      | .error e => ((pyStr "Server error processing files: " ++ e, 500), fs1)
      | .ok none =>
        ((pyStr "Files processed, local embeddings stored, and FAISS index created.", 200), fs1)
      | .ok (some idx) =>
        ((pyStr "Files processed, local embeddings stored, and FAISS index created.", 200),
          { fs1 with indexFile := some idx })

theorem processItems_all_skipped (embed : PyStr → Except PyStr (List Int))
    (filePaths : List FileItem)
    (h : ∀ it ∈ filePaths, it.name = none ∨ it.content = none) :
    processItems embed filePaths = .ok [] := by
  induction filePaths with
  | nil => rfl
  | cons it rest ih =>
    have hit := h it (List.mem_cons_self it rest)
    have hrest : processItems embed rest = .ok [] :=
      ih (fun x hx => h x (List.mem_cons_of_mem it hx))
    cases hn : it.name with
    | none => simpa [processItems, hn] using hrest
    | some n =>
      cases hc : it.content with
      | none => simpa [processItems, hn, hc] using hrest
      | some c =>
        rcases hit with hbad | hbad
        · rw [hn] at hbad; cases hbad
        · rw [hc] at hbad; cases hbad

/-- Claim C4: an ingestion batch in which every item is missing its name or
its content survives nothing; `upload_folder` returns the "nothing to embed"
response with HTTP 200 and leaves the persisted Chunk Store and Vector Index
exactly as they were. -/
theorem upload_folder_degenerate_batch_is_noop (embed : PyStr → Except PyStr (List Int))
    (filePaths : List FileItem) (fs : EmbStore)
    (h : ∀ it ∈ filePaths, it.name = none ∨ it.content = none) :
    upload_folder embed filePaths fs =
      ((pyStr "No valid files processed. Nothing to embed.", 200), fs) := by
  rw [upload_folder, processItems_all_skipped embed filePaths h]
  rfl

theorem upload_folder_degenerate_batch_is_noop_witness :
    upload_folder (fun _ => .ok [0])
        [⟨none, some (pyStr "orphan content")⟩, ⟨some (pyStr "name.txt"), none⟩]
        ⟨some [{ text := pyStr "old", filePath := pyStr "old.txt", embedding := [1] }],
         some { d := 1, vectors := [[1]] }⟩ =
      ((pyStr "No valid files processed. Nothing to embed.", 200),
        ⟨some [{ text := pyStr "old", filePath := pyStr "old.txt", embedding := [1] }],
         some { d := 1, vectors := [[1]] }⟩) :=
  upload_folder_degenerate_batch_is_noop (fun _ => .ok [0]) _ _ (by decide)

theorem processItems_ok_length (embed : PyStr → Except PyStr (List Int)) :
    ∀ (items : List FileItem) (chunks : List Chunk),
      processItems embed items = .ok chunks →
      chunks.length = (items.filter survives).length := by
  intro items
  induction items with
  | nil =>
    intro chunks h
    simp only [processItems, Except.ok.injEq] at h
    subst h
    rfl
  | cons it rest ih =>
    intro chunks h
    cases hn : it.name with
    | none =>
      rw [processItems, hn] at h
      have hs : survives it = false := by rw [survives, hn]
      rw [List.filter_cons, hs]
      exact ih chunks h
    | some n =>
      cases hc : it.content with
      | none =>
        rw [processItems, hn, hc] at h
        have hs : survives it = false := by rw [survives, hn, hc]
        rw [List.filter_cons, hs]
        exact ih chunks h
      | some c =>
        simp only [processItems, hn, hc] at h
        by_cases hcond : (!n.isEmpty && !c.isEmpty) = true
        · rw [if_pos hcond] at h
          cases hemb : embed c with
          | error e => rw [hemb] at h; cases h
          | ok v =>
            rw [hemb] at h
            cases hrest : processItems embed rest with
            | error e => rw [hrest] at h; cases h
            | ok chunks2 =>
              rw [hrest] at h
              simp only [Except.ok.injEq] at h
              subst h
              have hs : survives it = true := by rw [survives, hn, hc]; exact hcond
              simp [List.filter_cons, hs, List.length_cons, ih chunks2 hrest]
        · rw [if_neg hcond] at h
          have hs : survives it = false := by
            rw [survives, hn, hc]
            exact Bool.not_eq_true _ ▸ (by simpa using hcond)
          rw [List.filter_cons, hs]
          exact ih chunks h

theorem create_faiss_index_ok_none {chunks : List Chunk}
    (h : create_faiss_index chunks = .ok none) : chunks = [] := by
  cases chunks with
  | nil => rfl
  | cons c0 rest =>
    rw [create_faiss_index] at h
    by_cases hall : (c0 :: rest).all (fun c => c.embedding.length == c0.embedding.length) = true
    · rw [if_pos hall] at h
      cases h
    · rw [if_neg hall] at h
      cases h

theorem create_faiss_index_ntotal {chunks : List Chunk} {idx : FaissIndex}
    (h : create_faiss_index chunks = .ok (some idx)) : idx.ntotal = chunks.length := by
  cases chunks with
  | nil => cases h
  | cons c0 rest =>
    rw [create_faiss_index] at h
    by_cases hall : (c0 :: rest).all (fun c => c.embedding.length == c0.embedding.length) = true
    · rw [if_pos hall] at h
      simp only [Except.ok.injEq, Option.some.injEq] at h
      subst h
      simp [FaissIndex.ntotal]
    · rw [if_neg hall] at h
      cases h

/-- Claim C5: for a batch with `N ≥ 1` surviving documents, a successful
(HTTP 200) run of `upload_folder` persists a Chunk Store of length exactly `N`
and a Vector Index with `ntotal` exactly `N`, so after every successful ingest
the persisted index's vector count equals the persisted Chunk Store's length. -/
theorem upload_folder_roundtrip_invariant (embed : PyStr → Except PyStr (List Int))
    (filePaths : List FileItem) (fs : EmbStore) (N : Nat)
    (hN : (filePaths.filter survives).length = N) (hpos : 1 ≤ N)
    (h200 : (upload_folder embed filePaths fs).1.2 = 200) :
    ∃ chunks idx,
      (upload_folder embed filePaths fs).2.embeddingsFile = some chunks
      ∧ (upload_folder embed filePaths fs).2.indexFile = some idx
      ∧ chunks.length = N
      ∧ idx.ntotal = N := by
  cases hpi : processItems embed filePaths with
  | error e =>
    rw [upload_folder, hpi] at h200
    cases h200
  | ok chunks =>
    have hlen : chunks.length = N := by rw [processItems_ok_length embed filePaths chunks hpi, hN]
    have hne : chunks.isEmpty = false := by
      cases chunks with
      | nil => rw [List.length_nil] at hlen; omega
      | cons a b => rfl
    simp only [upload_folder, hpi, hne, Bool.false_eq_true, if_false] at h200 ⊢
    cases hci : create_faiss_index chunks with
    | error e =>
      simp only [hci] at h200
      exact absurd h200 (by decide)
    | ok oidx =>
      cases oidx with
      | none =>
        have : chunks = [] := create_faiss_index_ok_none hci
        subst this
        rw [List.length_nil] at hlen
        omega
      | some idx =>
        simp only [hci]
        exact ⟨chunks, idx, rfl, rfl, hlen, by rw [create_faiss_index_ntotal hci, hlen]⟩

theorem upload_folder_roundtrip_invariant_witness :
    ∃ chunks idx,
      (upload_folder (fun _ => .ok [(1 : Int), 0])
        [⟨some (pyStr "doc.txt"), some (pyStr "market text")⟩] ⟨none, none⟩).2.embeddingsFile
          = some chunks
      ∧ (upload_folder (fun _ => .ok [(1 : Int), 0])
        [⟨some (pyStr "doc.txt"), some (pyStr "market text")⟩] ⟨none, none⟩).2.indexFile
          = some idx
      ∧ chunks.length = 1
      ∧ idx.ntotal = 1 :=
  upload_folder_roundtrip_invariant (fun _ => .ok [(1 : Int), 0])
    [⟨some (pyStr "doc.txt"), some (pyStr "market text")⟩] ⟨none, none⟩ 1
    (by decide) (by decide) rfl

theorem processItems_error_of_embed_failure (embed : PyStr → Except PyStr (List Int)) :
    ∀ items : List FileItem,
      (∃ it ∈ items, ∃ n c, it.name = some n ∧ it.content = some c ∧
        n ≠ [] ∧ c ≠ [] ∧ ∃ e, embed c = .error e) →
      ∃ e2, processItems embed items = .error e2 := by
  intro items
  induction items with
  | nil =>
    rintro ⟨it, hmem, _⟩
    simp at hmem
  | cons it rest ih =>
    rintro ⟨wit, hmem, n, c, hn, hc, hne, hce, e, hee⟩
    rcases List.mem_cons.mp hmem with hw | hw
    · subst hw
      have hcond : (!n.isEmpty && !c.isEmpty) = true := by
        simp only [Bool.and_eq_true, Bool.not_eq_true']
        constructor
        · cases n with
          | nil => exact absurd rfl hne
          | cons a b => rfl
        · cases c with
          | nil => exact absurd rfl hce
          | cons a b => rfl
      refine ⟨e, ?_⟩
      simp only [processItems, hn, hc, if_pos hcond, hee]
    · obtain ⟨e2, he2⟩ := ih ⟨wit, hw, n, c, hn, hc, hne, hce, e, hee⟩
      cases hn2 : it.name with
      | none => exact ⟨e2, by rw [processItems, hn2]; exact he2⟩
      | some n2 =>
        cases hc2 : it.content with
        | none => exact ⟨e2, by rw [processItems, hn2, hc2]; exact he2⟩
        | some c2 =>
          by_cases hcond2 : (!n2.isEmpty && !c2.isEmpty) = true
          · cases hemb : embed c2 with
            | error e3 => exact ⟨e3, by simp only [processItems, hn2, hc2, if_pos hcond2, hemb]⟩
            | ok v => exact ⟨e2, by simp only [processItems, hn2, hc2, if_pos hcond2, hemb, he2]⟩
          · exact ⟨e2, by simp only [processItems, hn2, hc2, if_neg hcond2]; exact he2⟩

/-- Claim C9: when the embedding model raises for a surviving document,
`upload_folder` catches the exception and answers with HTTP 500; because every
embedding is computed before the first persisted write, neither the Chunk
Store nor the Vector Index is written — the persisted state is exactly the
pre-call state and the whole batch fails rather than skipping the document. -/
theorem upload_folder_embed_failure_is_atomic (embed : PyStr → Except PyStr (List Int))
    (filePaths : List FileItem) (fs : EmbStore)
    (h : ∃ it ∈ filePaths, ∃ n c, it.name = some n ∧ it.content = some c ∧
      n ≠ [] ∧ c ≠ [] ∧ ∃ e, embed c = .error e) :
    (upload_folder embed filePaths fs).1.2 = 500
    ∧ (upload_folder embed filePaths fs).2 = fs := by
  obtain ⟨e2, he2⟩ := processItems_error_of_embed_failure embed filePaths h
  rw [upload_folder, he2]
  exact ⟨rfl, rfl⟩

theorem upload_folder_embed_failure_is_atomic_witness :
    (upload_folder (fun _ => .error (pyStr "model failure"))
        [⟨some (pyStr "doc.txt"), some (pyStr "market text")⟩]
        ⟨some [], some { d := 2, vectors := [] }⟩).1.2 = 500
    ∧ (upload_folder (fun _ => .error (pyStr "model failure"))
        [⟨some (pyStr "doc.txt"), some (pyStr "market text")⟩]
        ⟨some [], some { d := 2, vectors := [] }⟩).2
      = ⟨some [], some { d := 2, vectors := [] }⟩ :=
  upload_folder_embed_failure_is_atomic (fun _ => .error (pyStr "model failure"))
    [⟨some (pyStr "doc.txt"), some (pyStr "market text")⟩]
    ⟨some [], some { d := 2, vectors := [] }⟩
    ⟨⟨some (pyStr "doc.txt"), some (pyStr "market text")⟩, by decide,
      pyStr "doc.txt", pyStr "market text", rfl, rfl, by decide, by decide,
      pyStr "model failure", rfl⟩
